import Mathlib

/-!
Shallow embedding of the Maven repository credential extractor
(`Windows/src/LaZagne/softwares/maven/mavenrepositories.py`).

The module reads two local XML files (a security file holding an optional
master password and a settings file holding server credential entries),
scans the settings file for raw credential records, and classifies each
record into one of three normalized shapes (plain password, encrypted
password plus symmetric key, private key with optional passphrase).

Python strings are modelled as `String`, Python dicts keyed by strings as
association lists with Python's update-in-place/append-at-end semantics,
XML element trees as a mutual inductive of nodes and forests, exceptions
as `Option`/early-return, and the file system as an explicit association
of paths to contents.
-/

/-- Characters stripped by Python's `str.strip()` with no argument. -/
def pyIsSpace (c : Char) : Bool :=
  c = ' ' || c = '\t' || c = '\n' || c = '\r' || c = '\x0b' || c = '\x0c'

/-- Python `str.strip()`: remove whitespace from both ends of a string. -/
def pyStrip (s : String) : String :=
  String.mk (((s.data.dropWhile pyIsSpace).reverse.dropWhile pyIsSpace).reverse)

/-- Fuel-indexed scanner behind `pyReplace`.  Scans left to right; at each
position, if the (non-empty) pattern occurs there, emits the replacement and
skips past the occurrence, otherwise copies one character.  Fuel at least the
length of the input makes it total in the intended sense. -/
def pyReplaceFuel (pat rep : List Char) : List Char → Nat → List Char
  | [], _ => []
  | l, 0 => l
  | c :: rest, f + 1 =>
    if pat ≠ [] && pat.isPrefixOf (c :: rest) then
      rep ++ pyReplaceFuel pat rep (rest.drop (pat.length - 1)) f
    else
      c :: pyReplaceFuel pat rep rest f

/-- Python `s.replace(pat, rep)`: replace every non-overlapping occurrence of
`pat` in `s` by `rep`, scanning left to right.  (All call sites in the source
use a non-empty pattern.) -/
def pyReplace (s pat rep : String) : String :=
  String.mk (pyReplaceFuel pat.data rep.data s.data s.data.length)

/-- Python `s.startswith(pre)`. -/
def pyStartsWith (s pre : String) : Bool := pre.data.isPrefixOf s.data

/-- Python `s.endswith(suf)`. -/
def pyEndsWith (s suf : String) : Bool := suf.data.isSuffixOf s.data

mutual
/-- An XML element as ElementTree exposes it: a tag, optional text, and the
list of direct child elements. -/
inductive XNode where
  | mk (tag : String) (text : Option String) (children : XForest)
/-- A list of sibling XML elements (spelled out mutually with `XNode` so that
structural recursion over the tree is available). -/
inductive XForest where
  | nil
  | cons (hd : XNode) (tl : XForest)
end

/-- Tag of an element (`element.tag`). -/
def XNode.tag : XNode → String
  | .mk t _ _ => t

/-- Text of an element (`element.text`, `None` when absent). -/
def XNode.text : XNode → Option String
  | .mk _ x _ => x

/-- Direct children of an element. -/
def XNode.children : XNode → XForest
  | .mk _ _ cs => cs

/-- Direct children as an ordinary list (Python `for child in element`). -/
def XForest.toList : XForest → List XNode
  | .nil => []
  | .cons c cs => c :: cs.toList

mutual
/-- All elements of the subtree rooted at a node, in document order. -/
def subtreeN : XNode → List XNode
  | .mk t x cs => .mk t x cs :: subtreeF cs
/-- All elements of a forest's subtrees, in document order. -/
def subtreeF : XForest → List XNode
  | .nil => []
  | .cons c cs => subtreeN c ++ subtreeF cs
end

/-- Strict descendants of a node in document order: the elements that an
ElementTree `".//…"` path iterates over. -/
def descendants (n : XNode) : List XNode := subtreeF n.children

mutual
/-- All elements of a subtree carrying the given tag, in document order. -/
def findallN (tag : String) : XNode → List XNode
  | .mk t x cs => (if t = tag then [XNode.mk t x cs] else []) ++ findallF tag cs
/-- All elements of a forest carrying the given tag, in document order. -/
def findallF (tag : String) : XForest → List XNode
  | .nil => []
  | .cons c cs => findallN tag c ++ findallF tag cs
end

/-- ElementTree `root.findall(".//tag")`: every descendant element with the
given tag, in document order. -/
def etFindall (n : XNode) (tag : String) : List XNode := findallF tag n.children

mutual
/-- First element of a subtree carrying the given tag (document order). -/
def findN (tag : String) : XNode → Option XNode
  | .mk t x cs => if t = tag then some (XNode.mk t x cs) else findF tag cs
/-- First element of a forest carrying the given tag (document order). -/
def findF (tag : String) : XForest → Option XNode
  | .nil => none
  | .cons c cs =>
    match findN tag c with
    | some r => some r
    | none => findF tag cs
end

/-- ElementTree `root.find(".//tag")`: the first descendant element with the
given tag in document order, if any. -/
def etFind (n : XNode) (tag : String) : Option XNode := findF tag n.children

/-- Python dict assignment `d[k] = v`: an existing key keeps its position and
gets the new value; a new key is appended at the end. -/
def pyInsert (k : String) (v : α) : List (String × α) → List (String × α)
  | [] => [(k, v)]
  | (k', v') :: rest => if k' = k then (k, v) :: rest else (k', v') :: pyInsert k v rest

/-- Python dict lookup: `d[k]` / `d.get(k)` / `k in d`, as an option. -/
def pyGet (k : String) : List (String × α) → Option α
  | [] => none
  | (k', v) :: rest => if k' = k then some v else pyGet k rest

/-- A raw credential record: the per-server string-keyed dict built by
`extract_repositories_credentials`. -/
abbrev Creds := List (String × String)

/-- A normalized output record: the `values` dict built by `run`.  Values are
optional because `values["SymetricEncryptionKey"] = master_password` can store
Python `None`. -/
abbrev Values := List (String × Option String)

/-- The `nodes_to_extract` allow-list set in `__init__`. -/
def nodes_to_extract : List String := ["id", "username", "password", "privateKey", "passphrase"]

/-- The `settings_namespace` prefix set in `__init__`. -/
def settings_namespace : String := "\x7bhttp://maven.apache.org/SETTINGS/1.0.0\x7d"

/-- Observable states of an XML input file as the source distinguishes them:
absent on disk (`os.path.isfile` false), present but failing to parse
(`ET.parse` raises), or parsed to a root element. -/
inductive XFile where
  | missing
  | parseError
  | parsed (root : XNode)

/-- Body of `extract_master_password` after the `isfile` check: find the first
`master` descendant; if present take its text (which may itself be `None`);
a parse failure is caught and yields `None`. -/
def extract_master_password : XFile → Option String
  | .missing => none
  | .parseError => none
  | .parsed root =>
    match etFind root "master" with
    | none => none
    | some node => node.text

/-- Inner loop of `extract_repositories_credentials` over one server's direct
children: strip the namespace from the child tag; when the bare tag is in the
allow-list store the stripped text.  A recognised child whose text is `None`
makes `child_node.text.strip()` raise `AttributeError`, modelled as `none`
(the exception escapes to the scanner's `except`). -/
def collectChildren : List XNode → Creds → Option Creds
  | [], creds => some creds
  | c :: rest, creds =>
    if pyReplace c.tag settings_namespace "" ∈ nodes_to_extract then
      match c.text with
      | none => none
      | some t => collectChildren rest (pyInsert (pyReplace c.tag settings_namespace "") (pyStrip t) creds)
    else
      collectChildren rest creds

/-- Per-server body of the scanner loop, starting from the empty dict. -/
def processServer (s : XNode) : Option Creds :=
  collectChildren s.children.toList []

/-- Outer loop of `extract_repositories_credentials` over the server nodes.
`repos_creds` (the accumulator) lives outside the `try`, so when a server
raises, the `except` swallows the exception and the records accumulated so
far are returned as they stand. -/
def scanServers : List XNode → List Creds → List Creds
  | [], acc => acc
  | s :: rest, acc =>
    match processServer s with
    | none => acc
    | some creds => scanServers rest (if 0 < creds.length then acc ++ [creds] else acc)

/-- The function `extract_repositories_credentials`: empty when the settings
file is absent or fails to parse at `ET.parse`, otherwise the scan over every
namespaced `server` descendant in document order. -/
def extract_repositories_credentials : XFile → List Creds
  | .missing => []
  | .parseError => []
  | .parsed root => scanServers (etFindall root (settings_namespace ++ "server")) []

/-- The local file system visible to the module: an association of paths to
file contents. -/
structure FS where
  files : List (String × String)

/-- Contents of a path, when a regular file exists there (`open(...).read()`). -/
def FS.read (fs : FS) (p : String) : Option String := pyGet p fs.files

/-- Python `os.path.isfile`. -/
def FS.isfile (fs : FS) (p : String) : Bool := (fs.read p).isSome

/-- Substitution of the literal placeholder in a private-key path:
`pk.replace("${user.home}", home)`. -/
def substHome (home pk : String) : String := pyReplace pk "$\x7buser.home\x7d" home

/-- The function `use_key_auth`: true only when the record has a `privateKey`
field and the substituted path names an existing file. -/
def use_key_auth (home : String) (fs : FS) (creds : Creds) : Bool :=
  match pyGet "privateKey" creds with
  | none => false
  | some pk => fs.isfile (substHome home pk)

/-- Body of `run`'s per-record loop: build the `values` dict for one raw
record.  `creds["id"]`, `creds["username"]`, `creds["password"]` raise
`KeyError` when absent and opening an unreadable key file raises `IOError`;
all are modelled as `none`. -/
def classify (home : String) (fs : FS) (master : Option String) (creds : Creds) : Option Values :=
  match pyGet "id" creds with
  | none => none
  | some idv =>
    match pyGet "username" creds with
    | none => none
    | some userv =>
      let values := pyInsert "Username" (some userv) (pyInsert "Id" (some idv) [])
      if use_key_auth home fs creds then
        match pyGet "privateKey" creds with
        | none => none
        | some pk =>
          match fs.read (substHome home pk) with
          | none => none
          | some contents =>
            let values := pyInsert "PrivateKey" (some (pyStrip (pyReplace contents "\n" ""))) values
            match pyGet "passphrase" creds with
            | none => some values
            | some ph => some (pyInsert "Passphrase" (some ph) values)
      else
        match pyGet "password" creds with
        | none => none
        | some pw =>
          let pwd := pyStrip pw
          if pyStartsWith pwd "\x7b" && pyEndsWith pwd "\x7d" then
            some (pyInsert "PasswordEncrypted" (some pwd) (pyInsert "SymetricEncryptionKey" master values))
          else
            some (pyInsert "Password" (some pwd) values)

/-- The `for creds in repos_creds` loop of `run`, accumulating `pwd_found`.
There is no per-record exception handling in the source: the first failing
record aborts the whole loop and no result list is produced. -/
def runLoop (home : String) (fs : FS) (master : Option String) : List Creds → List Values → Option (List Values)
  | [], acc => some acc
  | c :: rest, acc =>
    match classify home fs master c with
    | none => none
    | some v => runLoop home fs master rest (acc ++ [v])

/-- The function `run`: extract the master password and the raw records, then
classify every record in order; the resulting list is what `print_output`
receives (or `none` when an exception escapes the loop). -/
def run (home : String) (fs : FS) (secFile settingsFile : XFile) : Option (List Values) :=
  runLoop home fs (extract_master_password secFile) (extract_repositories_credentials settingsFile) []

/-- Field presence in a normalized record (`k in values`). -/
def hasField (k : String) (vals : Values) : Bool := (pyGet k vals).isSome

/-- Plain-password shape: a `Password` field and no trace of the other two
authentication payloads. -/
def isPlainShape (vals : Values) : Bool :=
  hasField "Password" vals && !hasField "PasswordEncrypted" vals &&
    !hasField "SymetricEncryptionKey" vals && !hasField "PrivateKey" vals &&
    !hasField "Passphrase" vals

/-- Encrypted-password shape: the symmetric-key/encrypted-password pair and no
trace of the other two authentication payloads. -/
def isEncShape (vals : Values) : Bool :=
  hasField "SymetricEncryptionKey" vals && hasField "PasswordEncrypted" vals &&
    !hasField "Password" vals && !hasField "PrivateKey" vals &&
    !hasField "Passphrase" vals

/-- Private-key shape: a `PrivateKey` field (passphrase optional) and no trace
of the other two authentication payloads. -/
def isKeyShape (vals : Values) : Bool :=
  hasField "PrivateKey" vals && !hasField "Password" vals &&
    !hasField "PasswordEncrypted" vals && !hasField "SymetricEncryptionKey" vals

/-- Per-server outcome used to state the document-order characterisation of
the scan: the record a server contributes to the result, when it processes
without an exception and is non-empty. -/
def serverResult (s : XNode) : Option Creds :=
  match processServer s with
  | none => none
  | some creds => if 0 < creds.length then some creds else none

/-- An empty file system (no private-key file exists). -/
def emptyFS : FS := ⟨[]⟩

/-- A file system holding one private-key file under the home directory. -/
def keyFS : FS := ⟨[("H/key", "AAA\nBBB\n")]⟩

/-- Concrete raw record with a plain password. -/
def credsPlain : Creds := [("id", "repo1"), ("username", "bob"), ("password", "plain")]

/-- Concrete raw record with a brace-wrapped (encrypted) password. -/
def credsEnc : Creds := [("id", "repo2"), ("username", "bob"), ("password", "\x7bENC\x7d")]

/-- Concrete raw record whose password is exactly the two delimiter braces. -/
def credsBraces : Creds := [("id", "repo4"), ("username", "eve"), ("password", "\x7b\x7d")]

/-- Concrete malformed raw record: no `username` field. -/
def credsNoUser : Creds := [("id", "broken")]

/-- Concrete raw record using private-key authentication, with a passphrase. -/
def credsKey : Creds :=
  [("id", "repo3"), ("username", "carol"), ("privateKey", "$\x7buser.home\x7d/key"), ("passphrase", "pp")]

/-- Concrete raw record with a passphrase field but password authentication. -/
def credsPwdPassphrase : Creds :=
  [("id", "repo5"), ("username", "dan"), ("password", "pw"), ("passphrase", "secret")]

/-- Concrete raw record with a privateKey path that exists nowhere and no
password field. -/
def credsDeadKey : Creds := [("id", "repo6"), ("username", "eli"), ("privateKey", "/gone")]

/-- Concrete settings server entry with one recognised child. -/
def srvGood : XNode :=
  .mk (settings_namespace ++ "server") none
    (.cons (.mk (settings_namespace ++ "id") (some "a") .nil) .nil)

/-- Concrete settings server entry whose recognised child has no text, so the
scanner's `child_node.text.strip()` raises on it. -/
def srvBad : XNode :=
  .mk (settings_namespace ++ "server") none
    (.cons (.mk (settings_namespace ++ "password") none .nil) .nil)

/-- Concrete settings tree: a good server entry followed by one that raises
during processing. -/
def settingsTreeMixed : XNode :=
  .mk "settings" none
    (.cons (.mk (settings_namespace ++ "servers") none
      (.cons srvGood (.cons srvBad .nil))) .nil)

/-- Concrete security tree whose first `master` descendant has no text while a
later `master` descendant carries text. -/
def securityTreeTwoMasters : XNode :=
  .mk "settingsSecurity" none
    (.cons (.mk "master" none .nil) (.cons (.mk "master" (some "X") .nil) .nil))

mutual
theorem findallN_eq (tag : String) (n : XNode) :
    findallN tag n = (subtreeN n).filter (fun m => m.tag = tag) := by
  match n with
  | .mk t x cs =>
    rw [findallN, subtreeN, List.filter_cons, findallF_eq tag cs]
    by_cases h : t = tag <;> simp [XNode.tag, h]
theorem findallF_eq (tag : String) (cs : XForest) :
    findallF tag cs = (subtreeF cs).filter (fun m => m.tag = tag) := by
  match cs with
  | .nil => rw [findallF, subtreeF]; rfl
  | .cons c cs' =>
    rw [findallF, subtreeF, List.filter_append, findallN_eq tag c, findallF_eq tag cs']
end

mutual
theorem findN_eq (tag : String) (n : XNode) :
    findN tag n = (findallN tag n).head? := by
  match n with
  | .mk t x cs =>
    rw [findN, findallN]
    by_cases h : t = tag
    · simp [h]
    · simp [h, findF_eq tag cs]
theorem findF_eq (tag : String) (cs : XForest) :
    findF tag cs = (findallF tag cs).head? := by
  match cs with
  | .nil => rw [findF, findallF]; rfl
  | .cons c cs' =>
    rw [findF, findallF]
    rw [findN_eq tag c, findF_eq tag cs']
    cases h : (findallN tag c).head? with
    | none =>
      rw [List.head?_eq_none_iff] at h
      simp [h]
    | some r =>
      cases hc : findallN tag c with
      | nil => rw [hc] at h; simp at h
      | cons a l => rw [hc] at h; simp at h; simp [hc, h]
end

/-- ElementTree `find(".//tag")` returns the first document-order descendant
with the tag: the recursive search agrees with filtering the document-order
descendant list. -/
theorem etFind_eq_head_filter (n : XNode) (tag : String) :
    etFind n tag = ((descendants n).filter (fun m => m.tag = tag)).head? := by
  rw [etFind, descendants, findF_eq, findallF_eq]

/-- ElementTree `findall(".//tag")` agrees with filtering the document-order
descendant list. -/
theorem etFindall_eq_filter (n : XNode) (tag : String) :
    etFindall n tag = (descendants n).filter (fun m => m.tag = tag) := by
  rw [etFindall, descendants, findallF_eq]

/-- Stripping is idempotent on the underlying character list. -/
theorem pyStrip_data_idem (l : List Char) :
    List.rdropWhile pyIsSpace
      ((List.rdropWhile pyIsSpace (l.dropWhile pyIsSpace)).dropWhile pyIsSpace) =
    List.rdropWhile pyIsSpace (l.dropWhile pyIsSpace) := by
  have hfix : (List.rdropWhile pyIsSpace (l.dropWhile pyIsSpace)).dropWhile pyIsSpace =
      List.rdropWhile pyIsSpace (l.dropWhile pyIsSpace) := by
    rw [List.dropWhile_eq_self_iff]
    intro hl
    have hpref := List.rdropWhile_prefix pyIsSpace (l.dropWhile pyIsSpace)
    have hd : (l.dropWhile pyIsSpace).dropWhile pyIsSpace = l.dropWhile pyIsSpace :=
      List.dropWhile_idempotent pyIsSpace l
    rw [List.dropWhile_eq_self_iff] at hd
    have hl' : 0 < (l.dropWhile pyIsSpace).length := lt_of_lt_of_le hl hpref.length_le
    have hget := hpref.getElem (show 0 < _ from hl)
    have := hd hl'
    simp only [List.get_eq_getElem] at this ⊢
    rw [← hget] at this
    exact this
  rw [hfix, List.rdropWhile_idempotent]

/-- Python strip is idempotent. -/
theorem pyStrip_idem (s : String) : pyStrip (pyStrip s) = pyStrip s := by
  have h1 : (pyStrip s).data = List.rdropWhile pyIsSpace (s.data.dropWhile pyIsSpace) := rfl
  show String.mk _ = pyStrip s
  rw [show pyStrip s = String.mk (pyStrip s).data from rfl]
  rw [h1]
  exact congrArg String.mk (pyStrip_data_idem s.data)

/-- Every character surviving strip was in the original string. -/
theorem pyStrip_mem {c : Char} {s : String} (h : c ∈ (pyStrip s).data) : c ∈ s.data := by
  have h1 : (pyStrip s).data = List.rdropWhile pyIsSpace (s.data.dropWhile pyIsSpace) := rfl
  rw [h1] at h
  have hp := List.rdropWhile_prefix pyIsSpace (s.data.dropWhile pyIsSpace)
  have h2 := hp.sublist.mem h
  exact (List.dropWhile_sublist pyIsSpace).mem h2

/-- With enough fuel, replacing a single-character pattern by the empty string
filters that character out of the list. -/
theorem pyReplaceFuel_singleton (a : Char) (l : List Char) :
    ∀ f, l.length ≤ f → pyReplaceFuel [a] [] l f = l.filter (fun c => c != a) := by
  induction l with
  | nil => intro f _; cases f <;> rfl
  | cons c rest ih =>
    intro f h
    cases f with
    | zero => simp at h
    | succ f' =>
      have hf' : rest.length ≤ f' := by simpa using h
      rw [pyReplaceFuel]
      by_cases hac : a = c
      · subst hac
        simp [List.isPrefixOf, ih f' hf']
      · have hne : (a == c) = false := by simp [hac]
        simp [List.isPrefixOf, hne, Ne.symm hac, ih f' hf']

/-- Python `contents.replace("\n", "")` removes exactly the newline
characters, keeping everything else in order. -/
theorem pyReplace_newline (s : String) :
    pyReplace s "\n" "" = String.mk (s.data.filter (fun c => c != '\n')) :=
  congrArg String.mk (pyReplaceFuel_singleton '\n' s.data s.data.length (le_refl _))

/-- No newline character survives `contents.replace("\n", "")`. -/
theorem pyReplace_newline_not_mem (s : String) :
    '\n' ∉ (pyReplace s "\n" "").data := by
  rw [pyReplace_newline]
  simp

/-- Dict membership after an assignment: the member is the assigned pair or was
already present. -/
theorem mem_pyInsert {α : Type} {kv : String × α} {k : String} {v : α} :
    ∀ {l : List (String × α)}, kv ∈ pyInsert k v l → kv = (k, v) ∨ kv ∈ l := by
  intro l
  induction l with
  | nil => intro h; simpa [pyInsert] using h
  | cons p rest ih =>
    intro h
    rw [pyInsert] at h
    by_cases hk : p.1 = k
    · rw [if_pos hk] at h
      rcases List.mem_cons.mp h with h | h
      · exact Or.inl h
      · exact Or.inr (List.mem_cons_of_mem _ h)
    · rw [if_neg hk] at h
      rcases List.mem_cons.mp h with h | h
      · exact Or.inr (h ▸ List.mem_cons_self _ _)
      · rcases ih h with h | h
        · exact Or.inl h
        · exact Or.inr (List.mem_cons_of_mem _ h)

/-- Every binding produced by the scanner's inner loop is either inherited from
the accumulator or an allow-listed field with a stripped value. -/
theorem collectChildren_mem {creds : Creds} :
    ∀ {cs : List XNode} {acc : Creds}, collectChildren cs acc = some creds →
      ∀ kv ∈ creds, kv ∈ acc ∨ (kv.1 ∈ nodes_to_extract ∧ pyStrip kv.2 = kv.2) := by
  intro cs
  induction cs with
  | nil =>
    intro acc h kv hkv
    rw [collectChildren] at h
    exact Or.inl ((Option.some.injEq _ _ ▸ h) ▸ hkv)
  | cons c rest ih =>
    intro acc h kv hkv
    rw [collectChildren] at h
    by_cases htag : pyReplace c.tag settings_namespace "" ∈ nodes_to_extract
    · rw [if_pos htag] at h
      cases htext : c.text with
      | none => rw [htext] at h; cases h
      | some t =>
        rw [htext] at h
        rcases ih h kv hkv with hmem | hgood
        · rcases mem_pyInsert hmem with heq | hacc
          · refine Or.inr ?_
            rw [heq]
            exact ⟨htag, pyStrip_idem t⟩
          · exact Or.inl hacc
        · exact Or.inr hgood
    · rw [if_neg htag] at h
      exact ih h kv hkv

/-- Every binding of a scanned server record is an allow-listed field with a
stripped value. -/
theorem processServer_mem {s : XNode} {creds : Creds}
    (h : processServer s = some creds) :
    ∀ kv ∈ creds, kv.1 ∈ nodes_to_extract ∧ pyStrip kv.2 = kv.2 := by
  intro kv hkv
  rcases collectChildren_mem h kv hkv with hmem | hgood
  · cases hmem
  · exact hgood

/-- The scanner's outer loop only ever appends to the accumulator. -/
theorem scanServers_acc (ss : List XNode) :
    ∀ acc, scanServers ss acc = acc ++ scanServers ss [] := by
  induction ss with
  | nil => intro acc; simp [scanServers]
  | cons s rest ih =>
    intro acc
    rw [scanServers, scanServers]
    cases hp : processServer s with
    | none => simp
    | some creds =>
      dsimp only
      by_cases hc : 0 < creds.length
      · rw [if_pos hc, if_pos hc, ih (acc ++ [creds]), ih ([] ++ [creds])]
        simp
      · rw [if_neg hc, if_neg hc, ih acc]

/-- The scan result is the per-server results of some document-order prefix of
the server list. -/
theorem scanServers_spec (ss : List XNode) :
    ∃ k, scanServers ss [] = (ss.take k).filterMap serverResult := by
  induction ss with
  | nil => exact ⟨0, rfl⟩
  | cons s rest ih =>
    obtain ⟨k, hk⟩ := ih
    cases hp : processServer s with
    | none =>
      refine ⟨0, ?_⟩
      rw [scanServers, hp]
      rfl
    | some creds =>
      refine ⟨k + 1, ?_⟩
      rw [scanServers, hp]
      dsimp only
      by_cases hc : 0 < creds.length
      · rw [if_pos hc, List.nil_append, scanServers_acc rest [creds], hk]
        simp [List.take_succ_cons, List.filterMap_cons, serverResult, hp, hc]
      · rw [if_neg hc, hk]
        simp [List.take_succ_cons, List.filterMap_cons, serverResult, hp, hc]

/-- A server whose processing raises stops the scan: everything after it is
ignored, and the accumulated records are returned as they stand. -/
theorem scanServers_halt {bad : XNode} (hbad : processServer bad = none) :
    ∀ (l₁ l₂ : List XNode) (acc : List Creds),
      scanServers (l₁ ++ bad :: l₂) acc = scanServers (l₁ ++ [bad]) acc := by
  intro l₁
  induction l₁ with
  | nil =>
    intro l₂ acc
    rw [List.nil_append, List.nil_append, scanServers, scanServers, hbad]
  | cons s rest ih =>
    intro l₂ acc
    rw [List.cons_append, List.cons_append, scanServers, scanServers]
    cases hp : processServer s with
    | none => rfl
    | some creds => exact ih l₂ _

/-- A record that fails classification aborts the whole `run` loop, whatever
came before or after it. -/
theorem runLoop_halt {home : String} {fs : FS} {master : Option String} {c : Creds}
    (hc : classify home fs master c = none) :
    ∀ (l₁ l₂ : List Creds) (acc : List Values),
      runLoop home fs master (l₁ ++ c :: l₂) acc = none := by
  intro l₁
  induction l₁ with
  | nil =>
    intro l₂ acc
    rw [List.nil_append, runLoop, hc]
  | cons d rest ih =>
    intro l₂ acc
    rw [List.cons_append, runLoop]
    cases hd : classify home fs master d with
    | none => rfl
    | some v => exact ih l₂ _

/-- C1: every raw record with id and username and a workable authentication
source (a usable private key or a password field) classifies to completion,
and the normalized record carries Id, Username, and exactly one
authentication payload shape: plain password, encrypted password plus
symmetric key, or private key — never two shapes and never zero. -/
theorem C1_normalized_shape (home : String) (fs : FS) (master : Option String) (creds : Creds)
    (hid : (pyGet "id" creds).isSome) (huser : (pyGet "username" creds).isSome)
    (hauth : use_key_auth home fs creds = true ∨ (pyGet "password" creds).isSome) :
    ∃ vals, classify home fs master creds = some vals ∧
      hasField "Id" vals = true ∧ hasField "Username" vals = true ∧
      ((isPlainShape vals = true ∧ isEncShape vals = false ∧ isKeyShape vals = false) ∨
       (isEncShape vals = true ∧ isPlainShape vals = false ∧ isKeyShape vals = false) ∨
       (isKeyShape vals = true ∧ isPlainShape vals = false ∧ isEncShape vals = false)) := by
  obtain ⟨idv, hidv⟩ := Option.isSome_iff_exists.mp hid
  obtain ⟨userv, huserv⟩ := Option.isSome_iff_exists.mp huser
  rw [classify, hidv, huserv]
  dsimp only
  cases hkey : use_key_auth home fs creds with
  | false =>
    rcases hauth with hauth | hauth
    · rw [hkey] at hauth; cases hauth
    · obtain ⟨pw, hpw⟩ := Option.isSome_iff_exists.mp hauth
      rw [hpw]
      dsimp only
      by_cases hwrap : (pyStartsWith (pyStrip pw) "\x7b" && pyEndsWith (pyStrip pw) "\x7d") = true
      · rw [if_pos hwrap]
        refine ⟨_, rfl, ?_, ?_, Or.inr (Or.inl ⟨?_, ?_, ?_⟩)⟩ <;>
          simp [hasField, pyGet, pyInsert, isPlainShape, isEncShape, isKeyShape]
      · rw [if_neg hwrap]
        refine ⟨_, rfl, ?_, ?_, Or.inl ⟨?_, ?_, ?_⟩⟩ <;>
          simp [hasField, pyGet, pyInsert, isPlainShape, isEncShape, isKeyShape]
  | true =>
    have hkey' := hkey
    rw [use_key_auth] at hkey'
    cases hpk : pyGet "privateKey" creds with
    | none => rw [hpk] at hkey'; cases hkey'
    | some pk =>
      rw [hpk] at hkey'
      dsimp only at hkey'
      rw [FS.isfile] at hkey'
      obtain ⟨contents, hcont⟩ := Option.isSome_iff_exists.mp hkey'
      rw [if_pos rfl]
      dsimp only
      rw [hcont]
      dsimp only
      cases hpass : pyGet "passphrase" creds with
      | none =>
        refine ⟨_, rfl, ?_, ?_, Or.inr (Or.inr ⟨?_, ?_, ?_⟩)⟩ <;>
          simp [hasField, pyGet, pyInsert, isPlainShape, isEncShape, isKeyShape]
      | some ph =>
        refine ⟨_, rfl, ?_, ?_, Or.inr (Or.inr ⟨?_, ?_, ?_⟩)⟩ <;>
          simp [hasField, pyGet, pyInsert, isPlainShape, isEncShape, isKeyShape]

theorem C1_witness :
    (pyGet "id" credsKey).isSome ∧ (pyGet "username" credsKey).isSome ∧
    use_key_auth "H" keyFS credsKey = true ∧
    (∃ vals, classify "H" keyFS (some "m") credsKey = some vals ∧
      hasField "Id" vals = true ∧ hasField "Username" vals = true ∧
      ((isPlainShape vals = true ∧ isEncShape vals = false ∧ isKeyShape vals = false) ∨
       (isEncShape vals = true ∧ isPlainShape vals = false ∧ isKeyShape vals = false) ∨
       (isKeyShape vals = true ∧ isPlainShape vals = false ∧ isEncShape vals = false))) :=
  ⟨by decide, by decide, by decide,
    C1_normalized_shape "H" keyFS (some "m") credsKey (by decide) (by decide) (Or.inl (by decide))⟩

/-- C2: when key authentication does not apply and the trimmed password is
brace-wrapped (the two-character value of just the braces included), the
classifier emits the master password as the symmetric encryption key (absence
when no master password exists — no failure) and the full trimmed delimited
string unmodified as the encrypted password. -/
theorem C2_encrypted_password (home : String) (fs : FS) (master : Option String) (creds : Creds)
    (idv userv pw : String)
    (hid : pyGet "id" creds = some idv) (huser : pyGet "username" creds = some userv)
    (hkey : use_key_auth home fs creds = false)
    (hpw : pyGet "password" creds = some pw)
    (hstart : pyStartsWith (pyStrip pw) "\x7b" = true)
    (hend : pyEndsWith (pyStrip pw) "\x7d" = true) :
    classify home fs master creds =
      some [("Id", some idv), ("Username", some userv),
        ("SymetricEncryptionKey", master), ("PasswordEncrypted", some (pyStrip pw))] := by
  rw [classify, hid, huser]
  dsimp only
  rw [hkey, if_neg (by decide), hpw]
  dsimp only
  rw [if_pos (by rw [hstart, hend]; rfl)]
  simp [pyInsert]

theorem C2_witness :
    (use_key_auth "h" emptyFS credsEnc = false ∧
      pyGet "password" credsEnc = some "\x7bENC\x7d" ∧
      classify "h" emptyFS (some "m") credsEnc =
        some [("Id", some "repo2"), ("Username", some "bob"),
          ("SymetricEncryptionKey", some "m"), ("PasswordEncrypted", some "\x7bENC\x7d")]) ∧
    (pyGet "password" credsBraces = some "\x7b\x7d" ∧
      classify "h" emptyFS none credsBraces =
        some [("Id", some "repo4"), ("Username", some "eve"),
          ("SymetricEncryptionKey", none), ("PasswordEncrypted", some "\x7b\x7d")]) :=
  ⟨⟨by decide, by decide,
    C2_encrypted_password "h" emptyFS (some "m") credsEnc "repo2" "bob" "\x7bENC\x7d"
      (by decide) (by decide) (by decide) (by decide) (by decide) (by decide)⟩,
   ⟨by decide,
    C2_encrypted_password "h" emptyFS none credsBraces "repo4" "eve" "\x7b\x7d"
      (by decide) (by decide) (by decide) (by decide) (by decide) (by decide)⟩⟩

/-- C3 counterexample: a parsed settings tree whose second server entry raises
during processing (recognised child with no text) makes the scan return the
record of the first server — a non-empty partial sequence, not the empty
sequence the claim demands. -/
theorem C3_counterexample :
    processServer srvBad = none ∧
    extract_repositories_credentials (.parsed settingsTreeMixed) = [[("id", "a")]] ∧
    extract_repositories_credentials (.parsed settingsTreeMixed) ≠ [] := by
  decide

/-- C3 amended: a failure at the initial parse stage (or a missing file)
yields the empty sequence; a failure while processing a server entry stops the
scan at that entry and returns the records accumulated before it — possibly a
non-empty partial sequence — and the scan itself always returns (never
aborts). -/
theorem C3_amended_scan_stops :
    extract_repositories_credentials .missing = [] ∧
    extract_repositories_credentials .parseError = [] ∧
    ∀ (bad : XNode), processServer bad = none →
      ∀ (l₁ l₂ : List XNode) (acc : List Creds),
        scanServers (l₁ ++ bad :: l₂) acc = scanServers (l₁ ++ [bad]) acc :=
  ⟨rfl, rfl, fun _ hbad => scanServers_halt hbad⟩

theorem C3_amended_witness :
    processServer srvBad = none ∧
    scanServers ([srvGood] ++ srvBad :: [srvGood]) [] = scanServers ([srvGood] ++ [srvBad]) [] :=
  ⟨by decide, C3_amended_scan_stops.2.2 srvBad (by decide) [srvGood] [srvGood] []⟩

/-- C4 counterexample: the batch [credsNoUser, credsPlain] produces no output
at all even though credsPlain classifies fine on its own — the malformed first
record terminates processing instead of being excluded per-record. -/
theorem C4_counterexample :
    classify "h" emptyFS none credsNoUser = none ∧
    classify "h" emptyFS none credsPlain =
      some [("Id", some "repo1"), ("Username", some "bob"), ("Password", some "plain")] ∧
    runLoop "h" emptyFS none [credsNoUser, credsPlain] [] = none := by
  decide

/-- C4 amended: a classification failure of any one record aborts the whole
batch — the loop returns no output list at all, regardless of what precedes or
follows the failing record; records are not processed independently. -/
theorem C4_amended_abort (home : String) (fs : FS) (master : Option String)
    (l₁ l₂ : List Creds) (c : Creds) (acc : List Values)
    (hc : classify home fs master c = none) :
    runLoop home fs master (l₁ ++ c :: l₂) acc = none :=
  runLoop_halt hc l₁ l₂ acc

theorem C4_amended_witness :
    classify "h" emptyFS none credsNoUser = none ∧
    runLoop "h" emptyFS none ([] ++ credsNoUser :: [credsPlain]) [] = none :=
  ⟨by decide, C4_amended_abort "h" emptyFS none [] [credsPlain] credsNoUser [] (by decide)⟩

/-- C5: for a record whose substituted private-key path names an existing
file, classification reads the file, removes every newline character and
strips surrounding whitespace into PrivateKey, copies a present passphrase
verbatim as Passphrase, and emits no Password field. -/
theorem C5_private_key (home : String) (fs : FS) (master : Option String) (creds : Creds)
    (idv userv pk contents : String)
    (hid : pyGet "id" creds = some idv) (huser : pyGet "username" creds = some userv)
    (hpk : pyGet "privateKey" creds = some pk)
    (hread : fs.read (substHome home pk) = some contents) :
    ∃ vals, classify home fs master creds = some vals ∧
      pyGet "PrivateKey" vals = some (some (pyStrip (pyReplace contents "\n" ""))) ∧
      (∀ c ∈ (pyStrip (pyReplace contents "\n" "")).data, c ≠ '\n') ∧
      (∀ ph, pyGet "passphrase" creds = some ph → pyGet "Passphrase" vals = some (some ph)) ∧
      (pyGet "passphrase" creds = none → pyGet "Passphrase" vals = none) ∧
      pyGet "Password" vals = none := by
  have hkey : use_key_auth home fs creds = true := by
    rw [use_key_auth, hpk]
    dsimp only
    rw [FS.isfile, hread]
    rfl
  have hnl : ∀ c ∈ (pyStrip (pyReplace contents "\n" "")).data, c ≠ '\n' := by
    intro c hc hcn
    subst hcn
    exact pyReplace_newline_not_mem contents (pyStrip_mem hc)
  rw [classify, hid, huser]
  dsimp only
  rw [hkey, if_pos rfl, hpk]
  dsimp only
  rw [hread]
  dsimp only
  cases hpass : pyGet "passphrase" creds with
  | none =>
    refine ⟨_, rfl, ?_, hnl, ?_, ?_, ?_⟩
    · simp [pyGet, pyInsert]
    · intro ph hph; cases hph
    · intro _; simp [pyGet, pyInsert]
    · simp [pyGet, pyInsert]
  | some ph =>
    refine ⟨_, rfl, ?_, hnl, ?_, ?_, ?_⟩
    · simp [pyGet, pyInsert]
    · intro ph' hph'
      injection hph' with h
      subst h
      simp [pyGet, pyInsert]
    · intro h; cases h
    · simp [pyGet, pyInsert]

theorem C5_witness :
    pyGet "privateKey" credsKey = some "$\x7buser.home\x7d/key" ∧
    keyFS.read (substHome "H" "$\x7buser.home\x7d/key") = some "AAA\nBBB\n" ∧
    (∃ vals, classify "H" keyFS none credsKey = some vals ∧
      pyGet "PrivateKey" vals = some (some (pyStrip (pyReplace "AAA\nBBB\n" "\n" ""))) ∧
      (∀ c ∈ (pyStrip (pyReplace "AAA\nBBB\n" "\n" "")).data, c ≠ '\n') ∧
      (∀ ph, pyGet "passphrase" credsKey = some ph → pyGet "Passphrase" vals = some (some ph)) ∧
      (pyGet "passphrase" credsKey = none → pyGet "Passphrase" vals = none) ∧
      pyGet "Password" vals = none) :=
  ⟨by decide, by decide,
    C5_private_key "H" keyFS none credsKey "repo3" "carol" "$\x7buser.home\x7d/key" "AAA\nBBB\n"
      (by decide) (by decide) (by decide) (by decide)⟩

/-- C6 counterexample: a security tree containing a master element with text
("X") anywhere in the tree on which locate() nevertheless returns absence,
because the first master descendant in document order has no text. -/
theorem C6_counterexample :
    extract_master_password (.parsed securityTreeTwoMasters) = none ∧
    (∃ n ∈ descendants securityTreeTwoMasters, n.tag = "master" ∧ n.text = some "X") ∧
    extract_master_password (.parsed securityTreeTwoMasters) ≠ some "X" := by
  decide

/-- C6 amended: locate() returns the text (possibly absent, taken verbatim
with no trimming) of the first descendant element named master in document
order; when the file is absent or malformed, or no master descendant exists,
or that first element has no text, it returns absence — and it always returns
(never raises). -/
theorem C6_amended_first_master :
    (∀ root : XNode, extract_master_password (.parsed root) =
      (((descendants root).filter (fun n => n.tag = "master")).head?).bind XNode.text) ∧
    extract_master_password .missing = none ∧
    extract_master_password .parseError = none := by
  refine ⟨fun root => ?_, rfl, rfl⟩
  rw [extract_master_password, etFind_eq_head_filter]
  cases h : ((descendants root).filter fun n => n.tag = "master").head? with
  | none => rfl
  | some node => rfl

/-- C7: the scan of a parsed settings file returns at most one record per
server descendant, as the per-server results of a document-order prefix of
the server list; every returned record is non-empty and holds only
allow-listed field names with whitespace-stripped values (so a server entry
with none of the five recognised fields contributes nothing). -/
theorem C7_scan_shape (root : XNode) :
    (extract_repositories_credentials (.parsed root)).length ≤
      (etFindall root (settings_namespace ++ "server")).length ∧
    (∃ k, extract_repositories_credentials (.parsed root) =
      ((etFindall root (settings_namespace ++ "server")).take k).filterMap serverResult) ∧
    ∀ creds ∈ extract_repositories_credentials (.parsed root),
      creds ≠ [] ∧ ∀ kv ∈ creds, kv.1 ∈ nodes_to_extract ∧ pyStrip kv.2 = kv.2 := by
  obtain ⟨k, hk⟩ := scanServers_spec (etFindall root (settings_namespace ++ "server"))
  have hrepr : extract_repositories_credentials (.parsed root) =
      ((etFindall root (settings_namespace ++ "server")).take k).filterMap serverResult := by
    rw [extract_repositories_credentials, hk]
  refine ⟨?_, ⟨k, hrepr⟩, ?_⟩
  · rw [hrepr]
    exact le_trans (List.length_filterMap_le _ _) (List.take_sublist _ _).length_le
  · intro creds hcreds
    rw [hrepr] at hcreds
    obtain ⟨s, _, hres⟩ := List.mem_filterMap.mp hcreds
    rw [serverResult] at hres
    cases hp : processServer s with
    | none => rw [hp] at hres; cases hres
    | some c =>
      rw [hp] at hres
      dsimp only at hres
      by_cases hc : 0 < c.length
      · rw [if_pos hc] at hres
        injection hres with h
        subst h
        exact ⟨List.length_pos.mp hc, processServer_mem hp⟩
      · rw [if_neg hc] at hres
        cases hres

theorem C7_witness :
    (extract_repositories_credentials (.parsed settingsTreeMixed)).length ≤
      (etFindall settingsTreeMixed (settings_namespace ++ "server")).length ∧
    (∃ k, extract_repositories_credentials (.parsed settingsTreeMixed) =
      ((etFindall settingsTreeMixed (settings_namespace ++ "server")).take k).filterMap serverResult) ∧
    ∀ creds ∈ extract_repositories_credentials (.parsed settingsTreeMixed),
      creds ≠ [] ∧ ∀ kv ∈ creds, kv.1 ∈ nodes_to_extract ∧ pyStrip kv.2 = kv.2 :=
  C7_scan_shape settingsTreeMixed

/-- C8: the concrete plain-password record round-trips to exactly Id,
Username, Password and nothing else — no encrypted-password pair, no private
key, no passphrase. -/
theorem C8_plain_roundtrip :
    classify "h" emptyFS none credsPlain =
      some [("Id", some "repo1"), ("Username", some "bob"), ("Password", some "plain")] ∧
    hasField "PasswordEncrypted"
      [("Id", some "repo1"), ("Username", some "bob"), ("Password", some "plain")] = false ∧
    hasField "SymetricEncryptionKey"
      [("Id", some "repo1"), ("Username", some "bob"), ("Password", some "plain")] = false ∧
    hasField "PrivateKey"
      [("Id", some "repo1"), ("Username", some "bob"), ("Password", some "plain")] = false ∧
    hasField "Passphrase"
      [("Id", some "repo1"), ("Username", some "bob"), ("Password", some "plain")] = false := by
  decide

/-- C9: when a privateKey field is present but the substituted path names no
existing file, key authentication is deemed not applicable, and if the record
also has no password field its classification fails. -/
theorem C9_dead_key_falls_through (home : String) (fs : FS) (master : Option String)
    (creds : Creds) (pk : String)
    (hpk : pyGet "privateKey" creds = some pk)
    (hfile : fs.isfile (substHome home pk) = false) :
    use_key_auth home fs creds = false ∧
      (pyGet "password" creds = none → classify home fs master creds = none) := by
  have hkey : use_key_auth home fs creds = false := by
    rw [use_key_auth, hpk]
    exact hfile
  refine ⟨hkey, fun hnopw => ?_⟩
  rw [classify]
  cases hidc : pyGet "id" creds with
  | none => rfl
  | some idv =>
    dsimp only
    cases huserc : pyGet "username" creds with
    | none => rfl
    | some userv =>
      dsimp only
      rw [hkey, if_neg (by decide), hnopw]

theorem C9_witness :
    pyGet "privateKey" credsDeadKey = some "/gone" ∧
    emptyFS.isfile (substHome "h" "/gone") = false ∧
    use_key_auth "h" emptyFS credsDeadKey = false ∧
    (pyGet "password" credsDeadKey = none → classify "h" emptyFS none credsDeadKey = none) :=
  ⟨by decide, by decide,
    C9_dead_key_falls_through "h" emptyFS none credsDeadKey "/gone" (by decide) (by decide)⟩

/-- C10: on the password path (key authentication not applicable), the
normalized record never contains a Passphrase field, even when the raw record
carries a passphrase. -/
theorem C10_no_passphrase_on_password_path (home : String) (fs : FS) (master : Option String)
    (creds : Creds) (vals : Values)
    (hkey : use_key_auth home fs creds = false)
    (h : classify home fs master creds = some vals) :
    pyGet "Passphrase" vals = none := by
  rw [classify] at h
  cases hidc : pyGet "id" creds with
  | none => rw [hidc] at h; cases h
  | some idv =>
    rw [hidc] at h
    dsimp only at h
    cases huserc : pyGet "username" creds with
    | none => rw [huserc] at h; cases h
    | some userv =>
      rw [huserc] at h
      dsimp only at h
      rw [hkey, if_neg (by decide)] at h
      cases hpwc : pyGet "password" creds with
      | none => rw [hpwc] at h; cases h
      | some pw =>
        rw [hpwc] at h
        dsimp only at h
        by_cases hwrap : (pyStartsWith (pyStrip pw) "\x7b" && pyEndsWith (pyStrip pw) "\x7d") = true
        · rw [if_pos hwrap] at h
          injection h with h'
          subst h'
          simp [pyGet, pyInsert]
        · rw [if_neg hwrap] at h
          injection h with h'
          subst h'
          simp [pyGet, pyInsert]

theorem C10_witness :
    use_key_auth "h" emptyFS credsPwdPassphrase = false ∧
    classify "h" emptyFS none credsPwdPassphrase =
      some [("Id", some "repo5"), ("Username", some "dan"), ("Password", some "pw")] ∧
    pyGet "passphrase" credsPwdPassphrase = some "secret" ∧
    pyGet "Passphrase"
      [("Id", some "repo5"), ("Username", some "dan"), ("Password", some "pw")] = none :=
  ⟨by decide, by decide, by decide,
    C10_no_passphrase_on_password_path "h" emptyFS none credsPwdPassphrase
      [("Id", some "repo5"), ("Username", some "dan"), ("Password", some "pw")]
      (by decide) (by decide)⟩
